import Mathlib

set_option maxHeartbeats 1000000
set_option maxRecDepth 100000

namespace HexNet

/-! Shallow embedding of the hexnet_service codec (src/main.go).
    Strings are modelled as lists of characters and byte buffers as lists of
    naturals below 256.  Fallible Go functions returning `(T, error)` are
    modelled with `Option` (the encoder) or with an explicit error component
    (the stream decoder, which has partial-success semantics). -/

/-- Characters with the Unicode White_Space property, as tested by
    `unicode.IsSpace`, which `strings.TrimSpace` uses in `parseHexStream`. -/
def isSpace (c : Char) : Bool :=
  let n := c.toNat
  (9 ≤ n && n ≤ 13) || n == 32 || n == 133 || n == 160 || n == 5760 ||
  (8192 ≤ n && n ≤ 8202) || n == 8232 || n == 8233 || n == 8239 ||
  n == 8287 || n == 12288

/-- Go `strings.TrimSpace`: remove leading and trailing white space. -/
def trimSpace (s : List Char) : List Char :=
  ((s.dropWhile isSpace).reverse.dropWhile isSpace).reverse

/-- Removal of an optional leading `0x` / `0X` marker, as done by the
    `strings.HasPrefix` tests followed by `hexStr[2:]` in `parseHexStream`
    (a string shorter than two characters has neither marker). -/
def strip0x (s : List Char) : List Char :=
  match s with
  | c1 :: c2 :: rest =>
    if (c1 = '0' ∧ c2 = 'x') ∨ (c1 = '0' ∧ c2 = 'X') then rest
    else c1 :: c2 :: rest
  | t => t

/-- Value of one hexadecimal digit character (by its code point), as in
    `fromHexChar` of Go's `encoding/hex`: `0-9`, `a-f` and `A-F`. -/
def hexDigitVal (n : Nat) : Option Nat :=
  if 48 ≤ n ∧ n ≤ 57 then some (n - 48)
  else if 97 ≤ n ∧ n ≤ 102 then some (n - 87)
  else if 65 ≤ n ∧ n ≤ 70 then some (n - 55)
  else none

/-- Whether a character is a hexadecimal digit accepted by `hexDigitVal`. -/
def isHexDigitChar (c : Char) : Bool :=
  (hexDigitVal c.toNat).isSome

/-- Go `hex.DecodeString`: two hex digits per byte; `none` models the error
    returned on an odd-length input or on any non-hex character. -/
def hexDecode : List Char → Option (List Nat)
  | [] => some []
  | [_] => none
  | c1 :: c2 :: rest =>
    match hexDigitVal c1.toNat, hexDigitVal c2.toNat, hexDecode rest with
    | some h, some l, some tl => some ((16 * h + l) :: tl)
    | _, _, _ => none

/-- Lowercase hexadecimal digit characters, indexed by value — Go's
    `hextable` constant. -/
def hexDigitChar (n : Nat) : Char :=
  "0123456789abcdef".data.getD n '0'

/-- Two lowercase hex digits of one byte, as printed by Go's `%02x` and
    `hex.EncodeToString` for a byte value. -/
def hexByte (b : Nat) : List Char :=
  [hexDigitChar (b / 16), hexDigitChar (b % 16)]

/-- Go `hex.EncodeToString` / `%x` on a byte slice: lowercase, two digits
    per byte, no separators. -/
def hexEncode (bs : List Nat) : List Char :=
  (bs.map hexByte).flatten

/-- Decimal digit characters, indexed by value. -/
def digitChar (n : Nat) : Char :=
  "0123456789".data.getD n '0'

/-- Decimal notation, fuel-structured so that it computes in the kernel:
    any fuel at least `n` is enough (see `natToDecAux_fuel`). -/
def natToDecAux : Nat → Nat → List Char
  | 0, n => [digitChar n]
  | fuel + 1, n =>
    if n < 10 then [digitChar n]
    else natToDecAux fuel (n / 10) ++ [digitChar (n % 10)]

/-- Decimal notation of a natural number, as printed by Go's `%d` and by
    `net.IP.String` for each byte of a dotted-decimal IPv4 address. -/
def natToDec (n : Nat) : List Char :=
  natToDecAux n n

/-- Dotted-decimal rendering of a 4-byte IPv4 address, as produced by
    `net.IPv4(a, b, c, d).String()`. -/
def ipv4String (bs : List Nat) : List Char :=
  match bs with
  | [a, b, c, d] =>
    natToDec a ++ '.' :: (natToDec b ++ '.' :: (natToDec c ++ '.' :: natToDec d))
  | _ => []

/-- Go `cidrPrefixBytes`: `0` for a non-positive prefix, otherwise
    `math.Ceil(float64(prefix) / 8.0)`, which is exact on these inputs. -/
def cidrPrefixBytes (p : Int) : Nat :=
  if p ≤ 0 then 0 else (p.toNat + 7) / 8

/-- One output record of the decoder (the Go `pair` struct without its
    presentation-only `Error` field). -/
structure pair where
  Target : List Char
  Route : List Char
  Hex : List Char
deriving DecidableEq

/-- Error kinds of `parseHexStream`, by the spec's names: `InvalidHex` is
    Go's "invalid hex string", `TruncatedStream` "unexpected end of data",
    `TruncatedRecord` "not enough data for record". -/
inductive StreamError where
  | InvalidHex
  | TruncatedStream
  | TruncatedRecord
deriving DecidableEq

/-- Zero-filled 4-byte buffer with the network bytes copied in, as built by
    `make`, `copy(netIP, netPart)` in the decoder loop (`copy` writes at
    most 4 bytes). -/
def padTo4 (np : List Nat) : List Nat :=
  (np ++ [0, 0, 0, 0]).take 4

/-- Decoder loop of `parseHexStream` over the hex-decoded byte buffer: the
    list models the suffix `data[i:]` of the buffer, so the `[]` case is the
    loop condition `i < len(data)` failing and the inner length test models
    `i+1 > len(data)` on the remaining bytes.  The fuel argument only makes
    the recursion structural (each iteration consumes at least five bytes,
    so any fuel at least `data.length` is enough and the `0, _ :: _` case is
    unreachable; see `decodeLoopAux_fuel` and `decodeLoop_cons`). -/
def decodeLoopAux : Nat → List Nat → List pair × Option StreamError
  | _, [] => ([], none)
  | 0, _ :: _ => ([], none)
  | fuel + 1, prefixLen :: rest =>
    if (prefixLen :: rest).length < 1 then ([], some StreamError.TruncatedStream)
    else
      let bytesNeeded := cidrPrefixBytes (Int.ofNat prefixLen)
      if rest.length < bytesNeeded + 4 then ([], some StreamError.TruncatedRecord)
      else
        let netPart := rest.take bytesNeeded
        let routePart := (rest.drop bytesNeeded).take 4
        let tailRes := decodeLoopAux fuel ((rest.drop bytesNeeded).drop 4)
        (⟨ipv4String (padTo4 netPart) ++ '/' :: natToDec prefixLen,
          ipv4String routePart,
          '0' :: 'x' :: hexEncode (prefixLen :: (netPart ++ routePart))⟩ :: tailRes.1,
         tailRes.2)

/-- Decoder loop entry point, with enough fuel for the whole buffer. -/
def decodeLoop (data : List Nat) : List pair × Option StreamError :=
  decodeLoopAux data.length data

/-- Go `parseHexStream`: trim white space, strip an optional `0x`/`0X`,
    hex-decode, then run the record loop; on a hex error the record list is
    `nil` (here `[]`). -/
def parseHexStream (hexStr : List Char) : List pair × Option StreamError :=
  match hexDecode (strip0x (trimSpace hexStr)) with
  | none => ([], some StreamError.InvalidHex)
  | some data => decodeLoop data

/-- Whether a character is an ASCII decimal digit. -/
def isDigit (c : Char) : Bool :=
  48 ≤ c.toNat && c.toNat ≤ 57

/-- Value of a string of decimal digits (most significant first). -/
def decDigits (s : List Char) : Nat :=
  s.foldl (fun acc c => 10 * acc + (c.toNat - 48)) 0

/-- One dotted-decimal IPv4 field as accepted by `parseIPv4` of Go's
    `net/netip` (used by `net.ParseCIDR` and `net.ParseIP` since Go 1.18,
    and this repository builds with Go 1.24): nonempty, decimal digits only,
    no leading zero, value at most 255. -/
def parseV4Field (s : List Char) : Option Nat :=
  if s ≠ [] ∧ s.all isDigit = true ∧ (1 < s.length → s.head? ≠ some '0') ∧
      decDigits s ≤ 255
  then some (decDigits s) else none

/-- Splitting a character list at every `'.'` (so `n` dots give `n + 1`
    fields, empty fields included), mirroring how Go's `parseIPv4` scan
    delimits fields. -/
def splitDots : List Char → List (List Char)
  | [] => [[]]
  | c :: rest =>
    if c = '.' then [] :: splitDots rest
    else
      match splitDots rest with
      | [] => [[c]]
      | f :: fs => (c :: f) :: fs

/-- Parsing every field of a dotted address, failing if any field fails. -/
def parseFields : List (List Char) → Option (List Nat)
  | [] => some []
  | f :: fs =>
    match parseV4Field f, parseFields fs with
    | some v, some vs => some (v :: vs)
    | _, _ => none

/-- Go `netip.parseIPv4`: exactly four valid dot-separated fields.  IPv6
    textual forms (a non-goal of the program) are modelled as failures. -/
def parseIPv4 (s : List Char) : Option (List Nat) :=
  match parseFields (splitDots s) with
  | some fields => if fields.length = 4 then some fields else none
  | none => none

/-- Mask part of `net.ParseCIDR`: `dtoi` must consume the whole string
    (decimal digits only, leading zeros allowed) and the value must be at
    most the 32 bits of an IPv4 address. -/
def parseMaskLen (s : List Char) : Option Nat :=
  if s ≠ [] ∧ s.all isDigit = true ∧ decDigits s ≤ 32
  then some (decDigits s) else none

/-- Splitting at the first `'/'`, as `byteIndex(s, '/')` does in
    `net.ParseCIDR`; `none` when there is no slash. -/
def splitAtFirstSlash : List Char → Option (List Char × List Char)
  | [] => none
  | c :: rest =>
    if c = '/' then some ([], rest)
    else
      match splitAtFirstSlash rest with
      | some (a, b) => some (c :: a, b)
      | none => none

/-- Go `net.ParseCIDR` restricted to IPv4: the base address exactly as
    written (host bits kept — `ParseCIDR` returns it separately from the
    masked `ipNet.IP`, and `buildHexString` uses this unmasked one) together
    with the prefix length `ones` from `ipNet.Mask.Size()`. -/
def parseCIDR (s : List Char) : Option (List Nat × Nat) :=
  match splitAtFirstSlash s with
  | none => none
  | some (addr, mask) =>
    match parseIPv4 addr, parseMaskLen mask with
    | some ip, some n => some (ip, n)
    | _, _ => none

/-- Go `net.ParseIP` restricted to IPv4 (IPv6 gateways would be rejected by
    `ipToHex` anyway). -/
def parseIP (s : List Char) : Option (List Nat) :=
  parseIPv4 s

/-- Go `ipToHex`: for an IPv4 address, reject byte counts outside 0..4 and
    hex-encode the first `count` bytes of the address. -/
def ipToHex (ip : List Nat) (count : Nat) : Option (List Char) :=
  if count > 4 then none else some (hexEncode (ip.take count))

/-- Go `buildHexString`: parse the CIDR, hex the first
    `cidrPrefixBytes ones` bytes of the base address, parse the gateway,
    hex all four of its bytes, and emit
    `"0x" ++ %02x(ones) ++ targetHex ++ routeHex`. -/
def buildHexString (targetCIDR routeIP : List Char) : Option (List Char) :=
  match parseCIDR targetCIDR with
  | none => none
  | some (ip, ones) =>
    match ipToHex ip (cidrPrefixBytes (Int.ofNat ones)) with
    | none => none
    | some targetHex =>
      match parseIP routeIP with
      | none => none
      | some r =>
        match ipToHex r 4 with
        | none => none
        | some rHex =>
          some ('0' :: 'x' :: (hexByte ones ++ targetHex ++ rHex))

example : buildHexString ("192.168.0.0/24".data) ("192.168.0.1".data) =
    some ("0x18c0a800c0a80001".data) := by decide

example : buildHexString ("10.0.0.0/0".data) ("10.0.0.1".data) =
    some ("0x000a000001".data) := by decide

example : buildHexString ("192.168.0.129/25".data) ("10.0.0.1".data) =
    some ("0x19c0a800810a000001".data) := by decide

example : buildHexString ("not-a-cidr".data) ("10.0.0.1".data) = none := by
  decide

example : buildHexString ("192.168.0.0/33".data) ("10.0.0.1".data) = none := by
  decide

example : parseHexStream ("0x18c0a800c0a80001".data) =
    ([⟨"192.168.0.0/24".data, "192.168.0.1".data, "0x18c0a800c0a80001".data⟩],
     none) := by decide

example : parseHexStream ("0x000a000001".data) =
    ([⟨"0.0.0.0/0".data, "10.0.0.1".data, "0x000a000001".data⟩], none) := by
  decide

example : parseHexStream ("0xzz".data) = ([], some StreamError.InvalidHex) := by
  decide

example : parseHexStream ("0x18c0a800c0a800".data) =
    ([], some StreamError.TruncatedRecord) := by decide

/-! Infrastructure lemmas. -/

lemma natToDecAux_fuel (f g n : Nat) (hf : n ≤ f) (hg : n ≤ g) :
    natToDecAux f n = natToDecAux g n := by
  induction f generalizing g n with
  | zero =>
    interval_cases n
    cases g with
    | zero => rfl
    | succ g => simp [natToDecAux]
  | succ f ih =>
    cases g with
    | zero =>
      interval_cases n
      simp [natToDecAux]
    | succ g =>
      simp only [natToDecAux]
      split
      · rfl
      · rename_i h
        rw [ih g (n / 10) (by omega) (by omega)]

lemma natToDec_eq (n : Nat) :
    natToDec n =
      if n < 10 then [digitChar n]
      else natToDec (n / 10) ++ ([digitChar (n % 10)] : List Char) := by
  show natToDecAux n n = _
  cases h : decide (n < 10) with
  | true =>
    simp only [decide_eq_true_eq] at h
    rw [if_pos h]
    cases n with
    | zero => rfl
    | succ m => simp [natToDecAux, h]
  | false =>
    simp only [decide_eq_false_iff_not] at h
    rw [if_neg h]
    cases n with
    | zero => omega
    | succ m =>
      simp only [natToDecAux, if_neg h]
      rw [natToDecAux_fuel m ((m + 1) / 10) ((m + 1) / 10) (by omega) (by omega)]
      rfl

lemma decodeLoopAux_fuel (f g : Nat) (data : List Nat)
    (hf : data.length ≤ f) (hg : data.length ≤ g) :
    decodeLoopAux f data = decodeLoopAux g data := by
  induction f generalizing g data with
  | zero =>
    have : data = [] := by
      cases data with
      | nil => rfl
      | cons a l => simp at hf
    subst this
    cases g <;> rfl
  | succ f ih =>
    cases data with
    | nil => cases g <;> rfl
    | cons p rest =>
      cases g with
      | zero => simp at hg
      | succ g =>
        simp only [decodeLoopAux]
        split
        · rfl
        · have hlen : ((rest.drop (cidrPrefixBytes (Int.ofNat p))).drop 4).length ≤ rest.length := by
            simp only [List.length_drop]
            omega
          simp only [List.length_cons] at hf hg
          rw [ih g ((rest.drop (cidrPrefixBytes (Int.ofNat p))).drop 4)
            (by omega) (by omega)]

lemma decodeLoop_nil : decodeLoop [] = ([], none) := rfl

lemma decodeLoop_cons (p : Nat) (rest : List Nat) :
    decodeLoop (p :: rest) =
      if rest.length < cidrPrefixBytes (Int.ofNat p) + 4 then
        ([], some StreamError.TruncatedRecord)
      else
        (⟨ipv4String (padTo4 (rest.take (cidrPrefixBytes (Int.ofNat p)))) ++
            '/' :: natToDec p,
          ipv4String ((rest.drop (cidrPrefixBytes (Int.ofNat p))).take 4),
          '0' :: 'x' :: hexEncode (p :: (rest.take (cidrPrefixBytes (Int.ofNat p)) ++
            (rest.drop (cidrPrefixBytes (Int.ofNat p))).take 4))⟩ ::
            (decodeLoop ((rest.drop (cidrPrefixBytes (Int.ofNat p))).drop 4)).1,
         (decodeLoop ((rest.drop (cidrPrefixBytes (Int.ofNat p))).drop 4)).2) := by
  show decodeLoopAux ((p :: rest).length) (p :: rest) = _
  simp only [List.length_cons, decodeLoopAux]
  have h1 : ¬ (p :: rest).length < 1 := by simp
  simp only [List.length_cons] at h1
  rw [if_neg h1]
  split
  · rfl
  · rw [decodeLoopAux_fuel rest.length
      (((rest.drop (cidrPrefixBytes (Int.ofNat p))).drop 4).length)
      ((rest.drop (cidrPrefixBytes (Int.ofNat p))).drop 4)
      (by simp only [List.length_drop]; omega) (le_refl _)]
    rfl

/-! Hexadecimal encode/decode lemmas. -/

lemma hexDigitVal_lt {n v : Nat} (h : hexDigitVal n = some v) : v < 16 := by
  unfold hexDigitVal at h
  split_ifs at h <;> cases h <;> omega

lemma hexDigitVal_hexDigitChar {d : Nat} (h : d < 16) :
    hexDigitVal (hexDigitChar d).toNat = some d := by
  interval_cases d <;> decide

lemma hexEncode_nil : hexEncode [] = [] := rfl

lemma hexEncode_cons (b : Nat) (bs : List Nat) :
    hexEncode (b :: bs) = hexByte b ++ hexEncode bs := rfl

lemma hexEncode_append (a b : List Nat) :
    hexEncode (a ++ b) = hexEncode a ++ hexEncode b := by
  simp [hexEncode]

lemma hexDecode_hexByte {b : Nat} (hb : b < 256) (s : List Char) :
    hexDecode (hexByte b ++ s) = Option.map (fun tl => b :: tl) (hexDecode s) := by
  have h1 : hexDigitVal (hexDigitChar (b / 16)).toNat = some (b / 16) :=
    hexDigitVal_hexDigitChar (by omega)
  have h2 : hexDigitVal (hexDigitChar (b % 16)).toNat = some (b % 16) :=
    hexDigitVal_hexDigitChar (by omega)
  have hb16 : 16 * (b / 16) + b % 16 = b := by omega
  show hexDecode (hexDigitChar (b / 16) :: hexDigitChar (b % 16) :: s) = _
  simp only [hexDecode, h1, h2]
  cases h3 : hexDecode s with
  | none => rfl
  | some tl => simp [hb16]

lemma hexDecode_hexEncode (bs : List Nat) (h : ∀ b ∈ bs, b < 256) :
    hexDecode (hexEncode bs) = some bs := by
  induction bs with
  | cons w ws ih =>
    rw [hexEncode_cons, hexDecode_hexByte (h w (by simp)),
      ih (fun y hy => h y (List.mem_cons_of_mem w hy))]
    rfl
  | nil => rfl

lemma hexDecode_lt : ∀ (s : List Char) (bs : List Nat),
    hexDecode s = some bs → ∀ b ∈ bs, b < 256
  | [], bs, h => by
    simp only [hexDecode, Option.some.injEq] at h
    subst h
    simp
  | [c], bs, h => by
    simp [hexDecode] at h
  | c1 :: c2 :: rest, bs, h => by
    simp only [hexDecode] at h
    cases h1 : hexDigitVal c1.toNat with
    | none => rw [h1] at h; cases h
    | some hv =>
      cases h2 : hexDigitVal c2.toNat with
      | none => rw [h1, h2] at h; cases h
      | some lv =>
        cases h3 : hexDecode rest with
        | none => rw [h1, h2, h3] at h; cases h
        | some tl =>
          rw [h1, h2, h3] at h
          simp only [Option.some.injEq] at h
          subst h
          intro b hb
          rcases List.mem_cons.mp hb with hb | hb
          · subst hb
            have := hexDigitVal_lt h1
            have := hexDigitVal_lt h2
            omega
          · exact hexDecode_lt rest tl h3 b hb

/-! Character class lemmas. -/

lemma hexDigitChar_mem (d : Nat) :
    hexDigitChar d ∈ "0123456789abcdef".data := by
  rcases Nat.lt_or_ge d 16 with h | h
  · interval_cases d <;> decide
  · unfold hexDigitChar
    have h16 : ("0123456789abcdef".data).length ≤ d := by
      have hlen : ("0123456789abcdef".data).length = 16 := rfl
      omega
    rw [List.getD_eq_default _ _ h16]
    decide

lemma hexDigitChar_not_space (d : Nat) : isSpace (hexDigitChar d) = false := by
  have hmem := hexDigitChar_mem d
  have hall : ∀ c ∈ "0123456789abcdef".data, isSpace c = false := by decide
  exact hall _ hmem

lemma hexEncode_not_space (bs : List Nat) :
    ∀ c ∈ hexEncode bs, isSpace c = false := by
  induction bs with
  | cons w ws ih =>
    rw [hexEncode_cons]
    intro c hc
    rcases List.mem_append.mp hc with hc | hc
    · rcases List.mem_pair.mp hc with hc | hc <;>
        (subst hc; exact hexDigitChar_not_space _)
    · exact ih c hc
  | nil => simp [hexEncode_nil]

/-! White-space trimming lemmas. -/

lemma dropWhile_all_append {α : Type} {p : α → Bool} {l : List α} (u : List α)
    (h : ∀ c ∈ l, p c = true) :
    (l ++ u).dropWhile p = u.dropWhile p := by
  induction l with
  | cons e es ih =>
    simp only [List.cons_append, List.dropWhile_cons, h e (by simp)]
    exact ih (fun c hc => h c (by simp [hc]))
  | nil => rfl

lemma dropWhile_nil_of_all {α : Type} {p : α → Bool} {l : List α}
    (h : ∀ c ∈ l, p c = true) : l.dropWhile p = [] := by
  have := dropWhile_all_append (p := p) [] h
  simpa using this

lemma dropWhile_of_all_neg {α : Type} {p : α → Bool} {l : List α}
    (h : ∀ c ∈ l, p c = false) : l.dropWhile p = l := by
  cases l with
  | nil => rfl
  | cons a l => simp [List.dropWhile_cons, h a (by simp)]

lemma dropWhile_append_split {α : Type} [DecidableEq α] (p : α → Bool) (l u : List α) :
    (l ++ u).dropWhile p =
      if l.dropWhile p = [] then u.dropWhile p else l.dropWhile p ++ u := by
  induction l with
  | cons e es ih =>
    simp only [List.cons_append, List.dropWhile_cons]
    cases hpe : p e with
    | true => simpa [hpe] using ih
    | false => simp [hpe]
  | nil => simp

lemma trimSpace_of_no_space {l : List Char} (h : ∀ c ∈ l, isSpace c = false) :
    trimSpace l = l := by
  unfold trimSpace
  rw [dropWhile_of_all_neg h,
    dropWhile_of_all_neg (fun c hc => h c (List.mem_reverse.mp hc)),
    List.reverse_reverse]

lemma trimSpace_append_left {pre u : List Char}
    (h : ∀ c ∈ pre, isSpace c = true) :
    trimSpace (pre ++ u) = trimSpace u := by
  unfold trimSpace
  rw [dropWhile_all_append u h]

lemma trimSpace_append_right {u post : List Char}
    (h : ∀ c ∈ post, isSpace c = true) :
    trimSpace (u ++ post) = trimSpace u := by
  unfold trimSpace
  rw [dropWhile_append_split]
  split
  · rename_i h1
    rw [dropWhile_nil_of_all h, h1]
  · rename_i h1
    rw [List.reverse_append,
      dropWhile_all_append _ (fun c hc => h c (List.mem_reverse.mp hc))]

lemma trimSpace_all_space {w : List Char} (h : ∀ c ∈ w, isSpace c = true) :
    trimSpace w = [] := by
  unfold trimSpace
  rw [dropWhile_nil_of_all h]
  rfl

/-! Wire-format records and the stream decode lemma. -/

/-- One wire-format route record (the spec's BinaryRecord): a prefix-length
    byte, the encoded network bytes and four gateway bytes. -/
structure BinaryRecord where
  p : Nat
  netPart : List Nat
  gw : List Nat
deriving DecidableEq

/-- Well-formedness of a wire record: byte-valued fields, the network part
    of the length the prefix byte declares, four gateway bytes. -/
def recWF (r : BinaryRecord) : Prop :=
  r.p < 256 ∧ r.netPart.length = cidrPrefixBytes (Int.ofNat r.p) ∧
    (∀ b ∈ r.netPart, b < 256) ∧ r.gw.length = 4 ∧ (∀ b ∈ r.gw, b < 256)

instance (r : BinaryRecord) : Decidable (recWF r) := by
  unfold recWF
  infer_instance

/-- The bytes of one record on the wire. -/
def recWire (r : BinaryRecord) : List Nat :=
  r.p :: (r.netPart ++ r.gw)

/-- The decoder's output record for one wire record: zero-padded dotted
    network with the prefix, dotted gateway, and the record re-encoded from
    its original wire bytes. -/
def recPair (r : BinaryRecord) : pair :=
  ⟨ipv4String (padTo4 r.netPart) ++ '/' :: natToDec r.p,
   ipv4String r.gw,
   '0' :: 'x' :: hexEncode (recWire r)⟩

/-- The byte stream of a sequence of records, concatenated with no
    delimiter. -/
def streamWire (rs : List BinaryRecord) : List Nat :=
  (rs.map recWire).flatten

lemma decodeLoop_stream (rs : List BinaryRecord) (extra : List Nat) :
    (∀ r ∈ rs, recWF r) →
    decodeLoop (streamWire rs ++ extra) =
      ((rs.map recPair) ++ (decodeLoop extra).1, (decodeLoop extra).2) := by
  induction rs with
  | nil =>
    intro h
    simp [streamWire]
  | cons r rs ih =>
    intro h
    obtain ⟨hp, hlen, hnb, hglen, hgb⟩ := h r (by simp)
    have hrest : ∀ x ∈ rs, recWF x := fun x hx => h x (by simp [hx])
    have hX : streamWire (r :: rs) ++ extra =
        r.p :: (r.netPart ++ (r.gw ++ (streamWire rs ++ extra))) := by
      show (recWire r ++ streamWire rs) ++ extra = _
      simp [recWire, List.append_assoc]
    rw [hX, decodeLoop_cons,
      if_neg (by simp only [List.length_append]; omega),
      List.take_left' hlen, List.drop_left' hlen,
      List.take_left' hglen, List.drop_left' hglen, ih hrest]
    rfl

lemma strip0x_x (l : List Char) : strip0x ('0' :: 'x' :: l) = l := by
  show (if (('0' : Char) = '0' ∧ ('x' : Char) = 'x') ∨
      (('0' : Char) = '0' ∧ ('x' : Char) = 'X') then l else '0' :: 'x' :: l) = l
  rw [if_pos (Or.inl ⟨rfl, rfl⟩)]

lemma strip0x_X (l : List Char) : strip0x ('0' :: 'X' :: l) = l := by
  show (if (('0' : Char) = '0' ∧ ('X' : Char) = 'x') ∨
      (('0' : Char) = '0' ∧ ('X' : Char) = 'X') then l else '0' :: 'X' :: l) = l
  rw [if_pos (Or.inr ⟨rfl, rfl⟩)]

lemma strip0x_of_hex (s : List Char) (h : ∀ c ∈ s, isHexDigitChar c = true) :
    strip0x s = s := by
  match s with
  | [] => rfl
  | [c] => rfl
  | c1 :: c2 :: rest =>
    show (if (c1 = '0' ∧ c2 = 'x') ∨ (c1 = '0' ∧ c2 = 'X') then rest
      else c1 :: c2 :: rest) = _
    rw [if_neg]
    rintro (⟨h1, h2⟩ | ⟨h1, h2⟩) <;>
      (have hc := h c2 (by simp)
       rw [h2] at hc
       exact absurd hc (by decide))

lemma parseHexStream_hexEncode (bytes : List Nat) (h : ∀ b ∈ bytes, b < 256) :
    parseHexStream ('0' :: 'x' :: hexEncode bytes) = decodeLoop bytes := by
  unfold parseHexStream
  rw [trimSpace_of_no_space (by
    intro c hc
    rcases List.mem_cons.mp hc with hc | hc
    · subst hc; decide
    rcases List.mem_cons.mp hc with hc | hc
    · subst hc; decide
    · exact hexEncode_not_space bytes c hc),
    strip0x_x, hexDecode_hexEncode bytes h]

lemma decodeLoopAux_ne_truncStream (fuel : Nat) (data : List Nat) :
    (decodeLoopAux fuel data).2 ≠ some StreamError.TruncatedStream := by
  induction fuel generalizing data with
  | zero => cases data <;> simp [decodeLoopAux]
  | succ fuel ih =>
    cases data with
    | nil => simp [decodeLoopAux]
    | cons p rest =>
      simp only [decodeLoopAux]
      rw [if_neg (by simp)]
      split
      · decide
      · exact ih _

lemma decodeLoop_truncated (rs : List BinaryRecord) (p : Nat) (extra : List Nat)
    (h : ∀ r ∈ rs, recWF r)
    (hshort : extra.length < cidrPrefixBytes (Int.ofNat p) + 4) :
    decodeLoop (streamWire rs ++ (p :: extra)) =
      (rs.map recPair, some StreamError.TruncatedRecord) := by
  rw [decodeLoop_stream rs (p :: extra) h, decodeLoop_cons, if_pos hshort]
  simp

lemma padTo4_take (nw : List Nat) (bn : Nat) (hlen : nw.length = 4)
    (hbn : bn ≤ 4) (hz : nw.drop bn = List.replicate (4 - bn) 0) :
    padTo4 (nw.take bn) = nw := by
  unfold padTo4
  have hlt : (nw.take bn).length = bn := by
    simp [List.length_take, hlen]
    omega
  have h4 : (4 : Nat) = (nw.take bn).length + (4 - bn) := by omega
  have hrep : ([0, 0, 0, 0] : List Nat) = List.replicate 4 0 := rfl
  rw [hrep, h4, List.take_append, List.take_replicate]
  have hmin : min (4 - bn) ((List.take bn nw).length + (4 - bn)) = 4 - bn := by
    rw [hlt]
    omega
  rw [hmin, ← hz, List.take_append_drop]

/-! Parser / printer lemmas for the encoder side. -/

lemma parseV4Field_natToDec : ∀ b < 256, parseV4Field (natToDec b) = some b := by
  decide

lemma parseMaskLen_natToDec : ∀ p < 33, parseMaskLen (natToDec p) = some p := by
  decide

lemma natToDec_all_digit : ∀ b < 256, (natToDec b).all isDigit = true := by
  decide

lemma not_mem_of_all_digit {l : List Char} (hl : l.all isDigit = true)
    {c : Char} (hc : isDigit c = false) : c ∉ l := by
  intro hmem
  rw [List.all_eq_true] at hl
  have := hl c hmem
  rw [hc] at this
  cases this

lemma splitDots_no_dot {l : List Char} (h : '.' ∉ l) : splitDots l = [l] := by
  induction l with
  | nil => rfl
  | cons c rest ih =>
    have hc : ¬ c = '.' := fun hc => h (hc ▸ List.mem_cons_self c rest)
    have hrest : '.' ∉ rest := fun hm => h (List.mem_cons_of_mem c hm)
    simp only [splitDots, if_neg hc, ih hrest]

lemma splitDots_append {l : List Char} (r : List Char) (h : '.' ∉ l) :
    splitDots (l ++ '.' :: r) = l :: splitDots r := by
  induction l with
  | nil =>
    show splitDots ('.' :: r) = [] :: splitDots r
    simp [splitDots]
  | cons c rest ih =>
    have hc : ¬ c = '.' := fun hc => h (hc ▸ List.mem_cons_self c rest)
    have hrest : '.' ∉ rest := fun hm => h (List.mem_cons_of_mem c hm)
    show splitDots (c :: (rest ++ '.' :: r)) = _
    simp only [splitDots, if_neg hc, ih hrest]

lemma splitAtFirstSlash_append {l : List Char} (r : List Char) (h : '/' ∉ l) :
    splitAtFirstSlash (l ++ '/' :: r) = some (l, r) := by
  induction l with
  | nil =>
    show splitAtFirstSlash ('/' :: r) = some ([], r)
    simp [splitAtFirstSlash]
  | cons c rest ih =>
    have hc : ¬ c = '/' := fun hc => h (hc ▸ List.mem_cons_self c rest)
    have hrest : '/' ∉ rest := fun hm => h (List.mem_cons_of_mem c hm)
    show splitAtFirstSlash (c :: (rest ++ '/' :: r)) = _
    simp only [splitAtFirstSlash, if_neg hc, ih hrest]

lemma ipv4String_eq (a b c d : Nat) :
    ipv4String [a, b, c, d] =
      natToDec a ++ '.' :: (natToDec b ++ '.' :: (natToDec c ++ '.' :: natToDec d)) :=
  rfl

lemma ipv4String_chars (a b c d : Nat) (ha : a < 256) (hb : b < 256)
    (hc : c < 256) (hd : d < 256) :
    ∀ ch ∈ ipv4String [a, b, c, d], ch = '.' ∨ isDigit ch = true := by
  intro ch hch
  rw [ipv4String_eq] at hch
  have hdig : ∀ x, x < 256 → ch ∈ natToDec x → isDigit ch = true := by
    intro x hx hm
    have := natToDec_all_digit x hx
    rw [List.all_eq_true] at this
    exact this ch hm
  rcases List.mem_append.mp hch with hm | hm
  · exact Or.inr (hdig a ha hm)
  rcases List.mem_cons.mp hm with hm | hm
  · exact Or.inl hm
  rcases List.mem_append.mp hm with hm | hm
  · exact Or.inr (hdig b hb hm)
  rcases List.mem_cons.mp hm with hm | hm
  · exact Or.inl hm
  rcases List.mem_append.mp hm with hm | hm
  · exact Or.inr (hdig c hc hm)
  rcases List.mem_cons.mp hm with hm | hm
  · exact Or.inl hm
  · exact Or.inr (hdig d hd hm)

lemma parseIPv4_ipv4String (a b c d : Nat) (ha : a < 256) (hb : b < 256)
    (hc : c < 256) (hd : d < 256) :
    parseIPv4 (ipv4String [a, b, c, d]) = some [a, b, c, d] := by
  have hnd : ∀ x, x < 256 → '.' ∉ natToDec x := fun x hx =>
    not_mem_of_all_digit (natToDec_all_digit x hx) (by decide)
  rw [ipv4String_eq]
  simp only [parseIPv4, splitDots_append _ (hnd a ha),
    splitDots_append _ (hnd b hb), splitDots_append _ (hnd c hc),
    splitDots_no_dot (hnd d hd), parseFields, parseV4Field_natToDec a ha,
    parseV4Field_natToDec b hb, parseV4Field_natToDec c hc,
    parseV4Field_natToDec d hd]
  rfl

lemma parseV4Field_lt {s : List Char} {v : Nat} (h : parseV4Field s = some v) :
    v < 256 := by
  unfold parseV4Field at h
  split_ifs at h with h1
  cases h
  omega

lemma parseFields_lt : ∀ {fs : List (List Char)} {vs : List Nat},
    parseFields fs = some vs → ∀ v ∈ vs, v < 256
  | [], vs, h => by
    simp only [parseFields, Option.some.injEq] at h
    subst h
    simp
  | f :: fs, vs, h => by
    simp only [parseFields] at h
    cases h1 : parseV4Field f with
    | none => rw [h1] at h; cases h
    | some v =>
      cases h2 : parseFields fs with
      | none => rw [h1, h2] at h; cases h
      | some tl =>
        rw [h1, h2] at h
        simp only [Option.some.injEq] at h
        subst h
        intro x hx
        rcases List.mem_cons.mp hx with hx | hx
        · subst hx
          exact parseV4Field_lt h1
        · exact parseFields_lt h2 x hx

lemma parseIPv4_shape {s : List Char} {ip : List Nat}
    (h : parseIPv4 s = some ip) : ip.length = 4 ∧ ∀ b ∈ ip, b < 256 := by
  cases h1 : parseFields (splitDots s) with
  | none =>
    simp only [parseIPv4, h1] at h
    exact Option.noConfusion h
  | some fields =>
    simp only [parseIPv4, h1] at h
    split_ifs at h with h2
    cases h
    exact ⟨h2, parseFields_lt h1⟩

lemma parseMaskLen_le {s : List Char} {n : Nat} (h : parseMaskLen s = some n) :
    n ≤ 32 := by
  unfold parseMaskLen at h
  split_ifs at h with h1
  cases h
  omega

lemma cidrPrefixBytes_le {p : Nat} (h : p ≤ 32) :
    cidrPrefixBytes (Int.ofNat p) ≤ 4 := by
  unfold cidrPrefixBytes
  have h2 : (Int.ofNat p).toNat = p := rfl
  split_ifs with h1
  · omega
  · rw [h2]
    omega

lemma parseCIDR_of (a b c d p : Nat) (ha : a < 256) (hb : b < 256)
    (hc : c < 256) (hd : d < 256) (hp : p ≤ 32) :
    parseCIDR (ipv4String [a, b, c, d] ++ '/' :: natToDec p) =
      some ([a, b, c, d], p) := by
  have hns : '/' ∉ ipv4String [a, b, c, d] := by
    intro hm
    rcases ipv4String_chars a b c d ha hb hc hd '/' hm with h | h
    · cases h
    · cases h
  simp only [parseCIDR, splitAtFirstSlash_append _ hns,
    parseIPv4_ipv4String a b c d ha hb hc hd,
    parseMaskLen_natToDec p (by omega)]

lemma ipToHex_le {ip : List Nat} {count : Nat} (h : count ≤ 4) :
    ipToHex ip count = some (hexEncode (ip.take count)) := by
  unfold ipToHex
  rw [if_neg (by omega)]

lemma buildHexString_eq {s r : List Char} {ip gw : List Nat} {ones : Nat}
    (hcidr : parseCIDR s = some (ip, ones)) (hgw : parseIP r = some gw)
    (hones : ones ≤ 32) (hgwlen : gw.length = 4) :
    buildHexString s r =
      some ('0' :: 'x' ::
        hexEncode (ones :: (ip.take (cidrPrefixBytes (Int.ofNat ones)) ++ gw))) := by
  have htake : gw.take 4 = gw := by
    rw [← hgwlen, List.take_length]
  simp only [buildHexString, hcidr, ipToHex_le (cidrPrefixBytes_le hones), hgw,
    ipToHex_le (le_refl 4), htake, hexEncode_cons, hexEncode_append,
    List.append_assoc]

/-! Claim theorems. -/

/-- C6: the bytes-needed function equals `ceil(prefixLength/8)` at all the
    boundary values — 0 to 0, 1 to 1, 8 to 1, 9 to 2, 24 to 3, 25 to 4 and
    32 to 4 — and maps every non-positive prefix length to 0. -/
theorem C6_cidrPrefixBytes_boundaries (p : Int) (hp : p ≤ 0) :
    cidrPrefixBytes p = 0 ∧ cidrPrefixBytes 0 = 0 ∧ cidrPrefixBytes 1 = 1 ∧
    cidrPrefixBytes 8 = 1 ∧ cidrPrefixBytes 9 = 2 ∧ cidrPrefixBytes 24 = 3 ∧
    cidrPrefixBytes 25 = 4 ∧ cidrPrefixBytes 32 = 4 := by
  refine ⟨?_, rfl, rfl, rfl, rfl, rfl, rfl, rfl⟩
  unfold cidrPrefixBytes
  rw [if_pos hp]

/-- C6 witness: the theorem at the concrete non-positive prefix -7. -/
theorem C6_cidrPrefixBytes_boundaries_witness :
    (-7 : Int) ≤ 0 ∧ cidrPrefixBytes (-7) = 0 :=
  ⟨by decide, (C6_cidrPrefixBytes_boundaries (-7) (by decide)).1⟩

/-- C5: for every record whose length byte encodes a prefix length in
    [33,255], the decoder does not reject it: `bytesNeeded` is computed by
    the same ceiling formula `(p+7)/8`, and the record fails only when
    fewer than `bytesNeeded + 4` bytes remain (`TruncatedRecord`),
    otherwise a record is produced and the loop proceeds. -/
theorem C5_oversized_prefix_permissive (p : Nat) (rest : List Nat)
    (h33 : 33 ≤ p) (h255 : p ≤ 255) :
    cidrPrefixBytes (Int.ofNat p) = (p + 7) / 8 ∧
    (rest.length < (p + 7) / 8 + 4 →
      decodeLoop (p :: rest) = ([], some StreamError.TruncatedRecord)) ∧
    ((p + 7) / 8 + 4 ≤ rest.length →
      decodeLoop (p :: rest) =
        (⟨ipv4String (padTo4 (rest.take ((p + 7) / 8))) ++ '/' :: natToDec p,
          ipv4String ((rest.drop ((p + 7) / 8)).take 4),
          '0' :: 'x' :: hexEncode (p :: (rest.take ((p + 7) / 8) ++
            (rest.drop ((p + 7) / 8)).take 4))⟩ ::
          (decodeLoop ((rest.drop ((p + 7) / 8)).drop 4)).1,
         (decodeLoop ((rest.drop ((p + 7) / 8)).drop 4)).2)) := by
  have hc : cidrPrefixBytes (Int.ofNat p) = (p + 7) / 8 := by
    unfold cidrPrefixBytes
    have h2 : (Int.ofNat p).toNat = p := rfl
    rw [if_neg (by omega), h2]
  refine ⟨hc, ?_, ?_⟩
  · intro hshort
    rw [decodeLoop_cons, hc, if_pos hshort]
  · intro hlong
    rw [decodeLoop_cons, hc, if_neg (by omega)]

/-- C5 witness: prefix byte 255 with no following bytes triggers
    `TruncatedRecord`. -/
theorem C5_oversized_prefix_permissive_witness :
    33 ≤ 255 ∧ 255 ≤ 255 ∧
    decodeLoop (255 :: ([] : List Nat)) = ([], some StreamError.TruncatedRecord) :=
  ⟨by decide, by decide,
    (C5_oversized_prefix_permissive 255 [] (by decide) (by decide)).2.1 (by decide)⟩

/-- C9: the decoder trims leading and trailing white space before the
    `0x`/`0X` marker is stripped and the hex digits decoded, so surrounding
    any input with white space does not change the result, and an all-white
    space input decodes to no records with no error. -/
theorem C9_whitespace_trimmed (s pre post w : List Char)
    (hpre : ∀ c ∈ pre, isSpace c = true) (hpost : ∀ c ∈ post, isSpace c = true)
    (hw : ∀ c ∈ w, isSpace c = true) :
    parseHexStream (pre ++ s ++ post) = parseHexStream s ∧
    parseHexStream w = ([], none) := by
  constructor
  · unfold parseHexStream
    rw [List.append_assoc, trimSpace_append_left hpre,
      trimSpace_append_right hpost]
  · unfold parseHexStream
    rw [trimSpace_all_space hw]
    rfl

/-- C9 witness: the theorem at a concrete blob surrounded by spaces, a tab
    and a newline, and at a two-space input. -/
theorem C9_whitespace_trimmed_witness :
    parseHexStream ((" \t".data ++ "0x18c0a800c0a80001".data ++ "\n ".data)) =
      parseHexStream ("0x18c0a800c0a80001".data) ∧
    parseHexStream ("  ".data) = ([], none) :=
  C9_whitespace_trimmed ("0x18c0a800c0a80001".data) (" \t".data) ("\n ".data)
    ("  ".data) (by decide) (by decide) (by decide)

/-- C10: the decoder's "unexpected end of data" (`TruncatedStream`) branch
    is dead code — the loop condition already guarantees a length byte —
    so the only errors `parseHexStream` can return are `InvalidHex` and
    `TruncatedRecord`. -/
theorem C10_no_truncated_stream (s : List Char) (e : StreamError)
    (h : (parseHexStream s).2 = some e) :
    e = StreamError.InvalidHex ∨ e = StreamError.TruncatedRecord := by
  cases e with
  | InvalidHex => exact Or.inl rfl
  | TruncatedRecord => exact Or.inr rfl
  | TruncatedStream =>
    exfalso
    unfold parseHexStream at h
    cases hd : hexDecode (strip0x (trimSpace s)) with
    | none =>
      rw [hd] at h
      exact absurd h (by decide)
    | some data =>
      rw [hd] at h
      exact decodeLoopAux_ne_truncStream data.length data h

/-- C10 witness: the theorem applied at an input that fails with
    `InvalidHex`. -/
theorem C10_no_truncated_stream_witness :
    (parseHexStream ("0xzz".data)).2 = some StreamError.InvalidHex ∧
    (StreamError.InvalidHex = StreamError.InvalidHex ∨
      StreamError.InvalidHex = StreamError.TruncatedRecord) :=
  ⟨by decide, C10_no_truncated_stream ("0xzz".data) StreamError.InvalidHex (by decide)⟩

/-! C2: what the encoder actually emits, against the spec's masked network
    address. -/

lemma parseCIDR_shape {s : List Char} {ip : List Nat} {ones : Nat}
    (h : parseCIDR s = some (ip, ones)) :
    ones ≤ 32 ∧ ip.length = 4 ∧ ∀ b ∈ ip, b < 256 := by
  unfold parseCIDR at h
  cases h1 : splitAtFirstSlash s with
  | none => rw [h1] at h; exact Option.noConfusion h
  | some ab =>
    obtain ⟨addr, mask⟩ := ab
    simp only [h1] at h
    cases h2 : parseIPv4 addr with
    | none =>
      simp only [h2] at h
      exact Option.noConfusion h
    | some ip2 =>
      cases h3 : parseMaskLen mask with
      | none =>
        simp only [h2, h3] at h
        exact Option.noConfusion h
      | some n =>
        simp only [h2, h3, Option.some.injEq, Prod.mk.injEq] at h
        obtain ⟨hip, hn⟩ := h
        subst hip
        subst hn
        obtain ⟨hlen, hb⟩ := parseIPv4_shape h2
        exact ⟨parseMaskLen_le h3, hlen, hb⟩

lemma parseIP_shape {s : List Char} {gw : List Nat}
    (h : parseIP s = some gw) : gw.length = 4 ∧ ∀ b ∈ gw, b < 256 :=
  parseIPv4_shape h

/-- Spec-side definition, written from the claim's words only, for the C2
    refinement comparison: the network address of the CIDR, i.e. the base
    address with the host bits masked off (byte `i` keeps its top
    `min 8 (ones - 8*i)` bits). -/
def specNetworkAddress (ip : List Nat) (ones : Nat) : List Nat :=
  (List.range 4).map (fun i =>
    ip.getD i 0 / 2 ^ (8 - min 8 (ones - 8 * i)) * 2 ^ (8 - min 8 (ones - 8 * i)))

/-- C2 counterexample: for the accepted CIDR `192.168.0.129/25` the encoder
    emits the unmasked base-address bytes `c0a80081`, not the masked
    network `c0a80080` the claim predicts. -/
theorem C2_counterexample :
    buildHexString ("192.168.0.129/25".data) ("10.0.0.1".data) =
      some ("0x19c0a800810a000001".data) ∧
    buildHexString ("192.168.0.129/25".data) ("10.0.0.1".data) ≠
      some ('0' :: 'x' :: hexEncode ((25 : Nat) ::
        ((specNetworkAddress [192, 168, 0, 129] 25).take
          (cidrPrefixBytes (Int.ofNat 25)) ++ [10, 0, 0, 1]))) := by
  constructor
  · decide
  · decide

/-- C2 amended: for every CIDR string and gateway string the encoder
    accepts, the emitted byte sequence is the prefix length, then the first
    `bytesNeeded` bytes of the base address exactly as written in the CIDR
    (host bits inside those bytes are not masked off), then the four
    gateway bytes, hex-encoded behind `0x`. -/
theorem C2_emitted_bytes (s r : List Char) (ip gw : List Nat) (ones : Nat)
    (hcidr : parseCIDR s = some (ip, ones)) (hgw : parseIP r = some gw) :
    buildHexString s r =
      some ('0' :: 'x' ::
        hexEncode (ones :: (ip.take (cidrPrefixBytes (Int.ofNat ones)) ++ gw))) := by
  obtain ⟨hones, hiplen, hipb⟩ := parseCIDR_shape hcidr
  obtain ⟨hgwlen, hgwb⟩ := parseIP_shape hgw
  exact buildHexString_eq hcidr hgw hones hgwlen

/-- C2 amended witness: the theorem at `192.168.0.0/24` and `192.168.0.1`,
    reproducing the spec's concrete blob `0x18c0a800c0a80001`. -/
theorem C2_emitted_bytes_witness :
    parseCIDR ("192.168.0.0/24".data) = some ([192, 168, 0, 0], 24) ∧
    parseIP ("192.168.0.1".data) = some [192, 168, 0, 1] ∧
    buildHexString ("192.168.0.0/24".data) ("192.168.0.1".data) =
      some ('0' :: 'x' ::
        hexEncode ((24 : Nat) ::
          (([192, 168, 0, 0] : List Nat).take (cidrPrefixBytes (Int.ofNat 24)) ++
            [192, 168, 0, 1]))) :=
  ⟨by decide, by decide,
    C2_emitted_bytes ("192.168.0.0/24".data) ("192.168.0.1".data)
      [192, 168, 0, 0] [192, 168, 0, 1] 24 (by decide) (by decide)⟩

/-! C1 / C3 / C7 helpers. -/

lemma streamWire_cons (r : BinaryRecord) (rs : List BinaryRecord) :
    streamWire (r :: rs) = recWire r ++ streamWire rs := by
  simp [streamWire]

lemma streamWire_lt (rs : List BinaryRecord) (h : ∀ r ∈ rs, recWF r) :
    ∀ b ∈ streamWire rs, b < 256 := by
  induction rs with
  | nil => simp [streamWire]
  | cons r rs ih =>
    obtain ⟨hp, hlen, hnb, hglen, hgb⟩ := h r (by simp)
    rw [streamWire_cons]
    intro v hv
    rcases List.mem_append.mp hv with hv | hv
    · simp only [recWire] at hv
      rcases List.mem_cons.mp hv with hv | hv
      · subst hv
        exact hp
      · rcases List.mem_append.mp hv with hv | hv
        · exact hnb v hv
        · exact hgb v hv
    · exact ih (fun y hy => h y (by simp [hy])) v hv

lemma parseHexStream_single (r : BinaryRecord) (h : recWF r) :
    parseHexStream ('0' :: 'x' :: hexEncode (recWire r)) = ([recPair r], none) := by
  have h1 : ∀ x ∈ [r], recWF x := fun x hx => by
    rw [List.mem_singleton.mp hx]
    exact h
  have hsw : streamWire [r] = recWire r := by simp [streamWire]
  have hds := decodeLoop_stream [r] [] h1
  rw [List.append_nil, hsw] at hds
  rw [parseHexStream_hexEncode _ (by
    rw [← hsw]
    exact streamWire_lt [r] h1), hds]
  simp [decodeLoop_nil]

/-- C7: a stream that concatenates any number of well-formed single-record
    blobs (keeping the leading `0x` only once) decodes to exactly those
    records, in input order, each equal to the record its blob alone
    decodes to. -/
theorem C7_multi_record_concat (rs : List BinaryRecord)
    (h : ∀ r ∈ rs, recWF r) :
    parseHexStream ('0' :: 'x' :: hexEncode (streamWire rs)) =
      (rs.map recPair, none) ∧
    ∀ r ∈ rs, parseHexStream ('0' :: 'x' :: hexEncode (recWire r)) =
      ([recPair r], none) := by
  constructor
  · have hds := decodeLoop_stream rs [] h
    rw [List.append_nil] at hds
    rw [parseHexStream_hexEncode _ (streamWire_lt rs h), hds]
    simp [decodeLoop_nil]
  · intro r hr
    exact parseHexStream_single r (h r hr)

/-- C7 witness: two concrete records — `192.168.0.0/24` via `192.168.0.1`
    and the default route via `10.0.0.1` — concatenated behind one `0x`. -/
theorem C7_multi_record_concat_witness :
    (∀ r ∈ [(⟨24, [192, 168, 0], [192, 168, 0, 1]⟩ : BinaryRecord),
      ⟨0, [], [10, 0, 0, 1]⟩], recWF r) ∧
    parseHexStream ('0' :: 'x' ::
      hexEncode (streamWire [⟨24, [192, 168, 0], [192, 168, 0, 1]⟩,
        ⟨0, [], [10, 0, 0, 1]⟩])) =
      ([recPair ⟨24, [192, 168, 0], [192, 168, 0, 1]⟩,
        recPair ⟨0, [], [10, 0, 0, 1]⟩], none) :=
  ⟨by decide,
    ((C7_multi_record_concat
      [⟨24, [192, 168, 0], [192, 168, 0, 1]⟩, ⟨0, [], [10, 0, 0, 1]⟩]
      (by decide)).1)⟩

/-- C3: removing the last byte of any valid non-empty blob makes the
    decoder fail with `TruncatedRecord` (the `TruncatedStream` case of the
    claim cannot arise: a record is at least five bytes, so at least four
    bytes of the damaged final record remain), while the records fully
    contained before the truncation point are still returned. -/
theorem C3_truncated_last_byte (rs : List BinaryRecord) (r : BinaryRecord)
    (h : ∀ x ∈ rs ++ [r], recWF x) :
    parseHexStream ('0' :: 'x' ::
      hexEncode ((streamWire (rs ++ [r])).dropLast)) =
      (rs.map recPair, some StreamError.TruncatedRecord) := by
  have hr := h r (by simp)
  have hrs : ∀ x ∈ rs, recWF x := fun x hx => h x (by simp [hx])
  obtain ⟨hp, hlen, hnb, hglen, hgb⟩ := hr
  have hnenil : r.netPart ++ r.gw ≠ [] := by
    intro hcontra
    have := congrArg List.length hcontra
    simp [hglen] at this
  have hsw : streamWire (rs ++ [r]) = streamWire rs ++ recWire r := by
    simp [streamWire]
  have hdrop : (streamWire (rs ++ [r])).dropLast =
      streamWire rs ++ (r.p :: (r.netPart ++ r.gw).dropLast) := by
    rw [hsw, List.dropLast_append_of_ne_nil _ (by simp [recWire]), recWire,
      List.dropLast_cons_of_ne_nil hnenil]
  rw [hdrop]
  have hlt : ∀ x ∈ streamWire rs ++ (r.p :: (r.netPart ++ r.gw).dropLast),
      x < 256 := by
    intro v hv
    rcases List.mem_append.mp hv with hv | hv
    · exact streamWire_lt rs hrs v hv
    rcases List.mem_cons.mp hv with hv | hv
    · subst hv
      exact hp
    · have hv2 := List.mem_of_mem_dropLast hv
      rcases List.mem_append.mp hv2 with hv2 | hv2
      · exact hnb v hv2
      · exact hgb v hv2
  rw [parseHexStream_hexEncode _ hlt]
  apply decodeLoop_truncated rs r.p _ hrs
  rw [List.length_dropLast, List.length_append, hglen, hlen]
  omega

/-- C3 witness: a two-record blob (`192.168.0.0/24` via `192.168.0.1`,
    then the default route via `10.0.0.1`) truncated by one byte decodes
    the first record and fails with `TruncatedRecord`. -/
theorem C3_truncated_last_byte_witness :
    (∀ x ∈ [(⟨24, [192, 168, 0], [192, 168, 0, 1]⟩ : BinaryRecord)] ++
      [(⟨0, [], [10, 0, 0, 1]⟩ : BinaryRecord)], recWF x) ∧
    parseHexStream ('0' :: 'x' ::
      hexEncode ((streamWire ([⟨24, [192, 168, 0], [192, 168, 0, 1]⟩] ++
        [⟨0, [], [10, 0, 0, 1]⟩])).dropLast)) =
      ([recPair ⟨24, [192, 168, 0], [192, 168, 0, 1]⟩],
        some StreamError.TruncatedRecord) :=
  ⟨by decide,
    C3_truncated_last_byte [⟨24, [192, 168, 0], [192, 168, 0, 1]⟩]
      ⟨0, [], [10, 0, 0, 1]⟩ (by decide)⟩

/-- C1: encode/decode round trip.  For every valid route — prefix length
    in [0,32], byte-valued network and gateway, network bytes beyond
    `cidrPrefixBytes` zero — decoding the encoder's blob yields exactly one
    record whose CIDR target and gateway equal the input (the zero network
    bytes reconstructed) and whose hex field is the blob itself. -/
theorem C1_round_trip (p a b c d g1 g2 g3 g4 : Nat) (hp : p ≤ 32)
    (ha : a < 256) (hb : b < 256) (hc : c < 256) (hd : d < 256)
    (hg1 : g1 < 256) (hg2 : g2 < 256) (hg3 : g3 < 256) (hg4 : g4 < 256)
    (hz : ([a, b, c, d] : List Nat).drop (cidrPrefixBytes (Int.ofNat p)) =
      List.replicate (4 - cidrPrefixBytes (Int.ofNat p)) 0) :
    ∃ blob : List Char,
      buildHexString (ipv4String [a, b, c, d] ++ '/' :: natToDec p)
        (ipv4String [g1, g2, g3, g4]) = some blob ∧
      parseHexStream blob =
        ([⟨ipv4String [a, b, c, d] ++ '/' :: natToDec p,
           ipv4String [g1, g2, g3, g4], blob⟩], none) := by
  have hbn : cidrPrefixBytes (Int.ofNat p) ≤ 4 := cidrPrefixBytes_le hp
  refine ⟨'0' :: 'x' :: hexEncode (p ::
    (([a, b, c, d] : List Nat).take (cidrPrefixBytes (Int.ofNat p)) ++
      [g1, g2, g3, g4])), ?_, ?_⟩
  · exact C2_emitted_bytes _ _ [a, b, c, d] [g1, g2, g3, g4] p
      (parseCIDR_of a b c d p ha hb hc hd hp)
      (parseIPv4_ipv4String g1 g2 g3 g4 hg1 hg2 hg3 hg4)
  · have hwf : recWF ⟨p, ([a, b, c, d] : List Nat).take
        (cidrPrefixBytes (Int.ofNat p)), [g1, g2, g3, g4]⟩ := by
      refine ⟨?_, ?_, ?_, rfl, ?_⟩
      · show p < 256
        omega
      · show (([a, b, c, d] : List Nat).take
            (cidrPrefixBytes (Int.ofNat p))).length = cidrPrefixBytes (Int.ofNat p)
        rw [List.length_take]
        have h4 : ([a, b, c, d] : List Nat).length = 4 := rfl
        rw [h4]
        omega
      · show ∀ x ∈ ([a, b, c, d] : List Nat).take (cidrPrefixBytes (Int.ofNat p)),
          x < 256
        intro x hx
        have hmem := List.take_subset _ _ hx
        simp only [List.mem_cons, List.not_mem_nil, or_false] at hmem
        rcases hmem with h1 | h1 | h1 | h1 <;> (subst h1; omega)
      · show ∀ x ∈ ([g1, g2, g3, g4] : List Nat), x < 256
        intro y hy
        simp only [List.mem_cons] at hy
        rcases hy with h1 | h1 | h1 | h1 | h1
        any_goals (subst h1; omega)
        exact absurd h1 (List.not_mem_nil y)
    have hsingle := parseHexStream_single _ hwf
    rw [recWire] at hsingle
    rw [hsingle]
    have hpad : padTo4 (([a, b, c, d] : List Nat).take
        (cidrPrefixBytes (Int.ofNat p))) = [a, b, c, d] :=
      padTo4_take [a, b, c, d] (cidrPrefixBytes (Int.ofNat p)) rfl hbn hz
    simp only [recPair, recWire, hpad]

/-- C1 witness: the round trip at `192.168.0.0/24` with gateway
    `192.168.0.1`. -/
theorem C1_round_trip_witness :
    ∃ blob : List Char,
      buildHexString (ipv4String [192, 168, 0, 0] ++ '/' :: natToDec 24)
        (ipv4String [192, 168, 0, 1]) = some blob ∧
      parseHexStream blob =
        ([⟨ipv4String [192, 168, 0, 0] ++ '/' :: natToDec 24,
           ipv4String [192, 168, 0, 1], blob⟩], none) :=
  C1_round_trip 24 192 168 0 0 192 168 0 1 (by omega) (by norm_num) (by omega)
    (by norm_num) (by omega) (by norm_num) (by omega) (by norm_num) (by omega)
    (by decide)

/-! C8: hex-digit case and marker insensitivity. -/

/-- Two characters equal up to ASCII letter case (the second may be the
    lowercase form of the first or conversely). -/
def caseEquivChar (a b : Char) : Bool :=
  a == b || ((65 ≤ a.toNat && a.toNat ≤ 90) && b.toNat == a.toNat + 32) ||
  ((65 ≤ b.toNat && b.toNat ≤ 90) && a.toNat == b.toNat + 32)

/-- Pointwise case equivalence of two character lists. -/
def caseEquivChars : List Char → List Char → Bool
  | x :: xs, y :: ys => caseEquivChar x y && caseEquivChars xs ys
  | [], [] => true
  | _, _ => false

lemma hexDigitVal_add32 (m : Nat) (h1 : 65 ≤ m) (h2 : m ≤ 90) :
    hexDigitVal (m + 32) = hexDigitVal m := by
  interval_cases m <;> decide

lemma caseEquivChar_hexDigitVal (a b : Char) (h : caseEquivChar a b = true) :
    hexDigitVal b.toNat = hexDigitVal a.toNat := by
  simp only [caseEquivChar, Bool.or_eq_true, Bool.and_eq_true, beq_iff_eq,
    decide_eq_true_eq] at h
  rcases h with (h | ⟨⟨h1, h2⟩, h3⟩) | ⟨⟨h1, h2⟩, h3⟩
  · rw [h]
  · rw [h3]
    exact hexDigitVal_add32 a.toNat h1 h2
  · rw [h3]
    exact (hexDigitVal_add32 b.toNat h1 h2).symm

lemma hexDecode_caseEquiv : ∀ (s t : List Char),
    caseEquivChars s t = true → hexDecode t = hexDecode s
  | a1 :: a2 :: as, b1 :: b2 :: bs, h => by
    simp only [caseEquivChars, Bool.and_eq_true] at h
    obtain ⟨h1, h2, h3⟩ := h
    simp only [hexDecode, caseEquivChar_hexDigitVal a1 b1 h1,
      caseEquivChar_hexDigitVal a2 b2 h2, hexDecode_caseEquiv as bs h3]
  | [], [], _ => rfl
  | [_], [_], _ => rfl
  | [], _ :: _, h => nomatch h
  | _ :: _, [], h => nomatch h
  | [_], _ :: _ :: _, h => by simp [caseEquivChars] at h
  | _ :: _ :: _, [_], h => by simp [caseEquivChars] at h

lemma caseEquivChars_hex : ∀ (s t : List Char), caseEquivChars s t = true →
    (∀ c ∈ s, isHexDigitChar c = true) → ∀ c ∈ t, isHexDigitChar c = true
  | a :: as, b :: bs, h, hs => by
    simp only [caseEquivChars, Bool.and_eq_true] at h
    intro c hc
    rcases List.mem_cons.mp hc with hc | hc
    · subst hc
      show (hexDigitVal c.toNat).isSome = true
      rw [caseEquivChar_hexDigitVal a c h.1]
      exact hs a (by simp)
    · exact caseEquivChars_hex as bs h.2
        (fun x hx => hs x (List.mem_cons_of_mem a hx)) c hc
  | [], [], _, _ => by simp
  | [], _ :: _, h, _ => nomatch h
  | _ :: _, [], h, _ => nomatch h

lemma hex_range {c : Char} (h : isHexDigitChar c = true) :
    (48 ≤ c.toNat ∧ c.toNat ≤ 57) ∨ (97 ≤ c.toNat ∧ c.toNat ≤ 102) ∨
      (65 ≤ c.toNat ∧ c.toNat ≤ 70) := by
  unfold isHexDigitChar hexDigitVal at h
  split_ifs at h with h1 h2 h3
  · exact Or.inl h1
  · exact Or.inr (Or.inl h2)
  · exact Or.inr (Or.inr h3)
  · exact Bool.noConfusion h

lemma hex_not_space {c : Char} (h : isHexDigitChar c = true) :
    isSpace c = false := by
  have hr := hex_range h
  simp only [isSpace]
  apply Bool.eq_false_iff.mpr
  intro hexpr
  simp only [Bool.or_eq_true, Bool.and_eq_true, beq_iff_eq,
    decide_eq_true_eq] at hexpr
  omega

/-- C8: decoding is insensitive to the hex-digit case and to the optional
    `0x`/`0X` marker — for any hex-digit string, any case variant of it,
    decoded bare or behind `0x` or behind `0X`, gives the same result. -/
theorem C8_case_and_marker_insensitive (s t : List Char)
    (hs : ∀ c ∈ s, isHexDigitChar c = true)
    (heq : caseEquivChars s t = true) :
    parseHexStream ('0' :: 'x' :: t) = parseHexStream s ∧
    parseHexStream ('0' :: 'X' :: t) = parseHexStream s ∧
    parseHexStream t = parseHexStream s := by
  have ht : ∀ c ∈ t, isHexDigitChar c = true := caseEquivChars_hex s t heq hs
  have hsns : ∀ c ∈ s, isSpace c = false := fun c hc => hex_not_space (hs c hc)
  have htns : ∀ c ∈ t, isSpace c = false := fun c hc => hex_not_space (ht c hc)
  have hdec : hexDecode t = hexDecode s := hexDecode_caseEquiv s t heq
  have key : ∀ u : List Char, trimSpace u = u → strip0x u = t →
      parseHexStream u = parseHexStream s := by
    intro u h1 h2
    unfold parseHexStream
    rw [h1, h2, hdec, trimSpace_of_no_space hsns, strip0x_of_hex s hs]
  refine ⟨key _ ?_ (strip0x_x t), key _ ?_ (strip0x_X t), key _ ?_ (strip0x_of_hex t ht)⟩
  · apply trimSpace_of_no_space
    intro c hc
    rcases List.mem_cons.mp hc with hc | hc
    · subst hc
      decide
    rcases List.mem_cons.mp hc with hc | hc
    · subst hc
      decide
    · exact htns c hc
  · apply trimSpace_of_no_space
    intro c hc
    rcases List.mem_cons.mp hc with hc | hc
    · subst hc
      decide
    rcases List.mem_cons.mp hc with hc | hc
    · subst hc
      decide
    · exact htns c hc
  · exact trimSpace_of_no_space htns

/-- C8 witness: the spec's three concrete variants —
    `0x18C0A800C0A80001`, `0X18c0a800c0a80001` and `18c0a800c0a80001` —
    all decode to the result of the bare uppercase digits. -/
theorem C8_case_and_marker_insensitive_witness :
    parseHexStream ('0' :: 'x' :: "18C0A800C0A80001".data) =
      parseHexStream ("18C0A800C0A80001".data) ∧
    parseHexStream ('0' :: 'X' :: "18c0a800c0a80001".data) =
      parseHexStream ("18C0A800C0A80001".data) ∧
    parseHexStream ("18c0a800c0a80001".data) =
      parseHexStream ("18C0A800C0A80001".data) :=
  ⟨(C8_case_and_marker_insensitive ("18C0A800C0A80001".data)
      ("18C0A800C0A80001".data) (by decide) (by decide)).1,
   (C8_case_and_marker_insensitive ("18C0A800C0A80001".data)
      ("18c0a800c0a80001".data) (by decide) (by decide)).2.1,
   (C8_case_and_marker_insensitive ("18C0A800C0A80001".data)
      ("18c0a800c0a80001".data) (by decide) (by decide)).2.2⟩

/-! C4: each output record's hex field re-encodes exactly its wire slice. -/

/-- The wire bytes a decoded record's hex field stands for: its `Hex`
    string with the `0x` marker stripped and hex-decoded. -/
def pairWire (pr : pair) : List Nat :=
  (hexDecode (strip0x pr.Hex)).getD []

lemma decodeLoopAux_wire (fuel : Nat) : ∀ (data : List Nat),
    data.length ≤ fuel → (∀ b ∈ data, b < 256) →
    ∃ suffix : List Nat,
      data = (((decodeLoopAux fuel data).1.map pairWire).flatten) ++ suffix ∧
      ((decodeLoopAux fuel data).2 = none → suffix = []) ∧
      ∀ pr ∈ (decodeLoopAux fuel data).1,
        pr.Hex = '0' :: 'x' :: hexEncode (pairWire pr) := by
  induction fuel with
  | zero =>
    intro data hlen hb
    have hnil : data = [] := by
      cases data with
      | nil => rfl
      | cons a l => simp at hlen
    subst hnil
    exact ⟨[], rfl, fun _ => rfl, by simp [decodeLoopAux]⟩
  | succ fuel ih =>
    intro data hlen hb
    cases data with
    | nil => exact ⟨[], rfl, fun _ => rfl, by simp [decodeLoopAux]⟩
    | cons p rest =>
      simp only [decodeLoopAux]
      rw [if_neg (by simp)]
      split
      · refine ⟨p :: rest, by simp, ?_, by simp⟩
        intro hcon
        exact Option.noConfusion hcon
      · rename_i h2
        set bn := cidrPrefixBytes (Int.ofNat p) with hbn
        have hrem : ((rest.drop bn).drop 4).length ≤ fuel := by
          simp only [List.length_drop]
          simp only [List.length_cons] at hlen
          omega
        have hrb : ∀ b ∈ (rest.drop bn).drop 4, b < 256 := fun b hbm =>
          hb b (List.mem_cons_of_mem p
            (List.drop_subset _ _ (List.drop_subset _ _ hbm)))
        obtain ⟨suffix, hsplit, himp, hhex⟩ := ih ((rest.drop bn).drop 4) hrem hrb
        have hfull : ∀ b ∈ p :: (rest.take bn ++ (rest.drop bn).take 4), b < 256 := by
          intro b hbm
          rcases List.mem_cons.mp hbm with hbm | hbm
          · subst hbm
            exact hb b (by simp)
          · rcases List.mem_append.mp hbm with hbm | hbm
            · exact hb b (List.mem_cons_of_mem p (List.take_subset _ _ hbm))
            · exact hb b (List.mem_cons_of_mem p
                (List.drop_subset _ _ (List.take_subset _ _ hbm)))
        have hw : pairWire ⟨ipv4String (padTo4 (rest.take bn)) ++ '/' :: natToDec p,
            ipv4String ((rest.drop bn).take 4),
            '0' :: 'x' :: hexEncode (p :: (rest.take bn ++ (rest.drop bn).take 4))⟩ =
            p :: (rest.take bn ++ (rest.drop bn).take 4) := by
          unfold pairWire
          show (hexDecode (strip0x ('0' :: 'x' ::
            hexEncode (p :: (rest.take bn ++ (rest.drop bn).take 4))))).getD [] = _
          rw [strip0x_x, hexDecode_hexEncode _ hfull]
          rfl
        refine ⟨suffix, ?_, ?_, ?_⟩
        · show p :: rest = _
          simp only [List.map_cons, List.flatten_cons, hw]
          rw [List.cons_append]
          congr 1
          show rest = List.take bn rest ++ List.take 4 (List.drop bn rest) ++
            (List.map pairWire
              (decodeLoopAux fuel (List.drop 4 (List.drop bn rest))).1).flatten ++
            suffix
          simp only [List.append_assoc]
          rw [← hsplit, List.take_append_drop, List.take_append_drop]
        · exact himp
        · intro pr hpr
          rcases List.mem_cons.mp hpr with hpr | hpr
          · subst hpr
            rw [hw]
          · exact hhex pr hpr

/-- C4: for every blob that hex-decodes to a buffer, each record the
    decoder outputs carries as its hex field the `0x`-prefixed re-encoding
    of exactly the wire bytes it consumed (length byte, the network bytes
    as read — not the zero-padded reconstruction — and the gateway bytes),
    and those per-record wire slices concatenated in order are exactly the
    corresponding initial slice of the blob's byte stream, with no
    leftover when decoding succeeds.  (At the byte level; the input's hex
    characters may differ in case, which decoding is insensitive to.) -/
theorem C4_record_hex_is_wire_slice (s : List Char) (data : List Nat)
    (hdec : hexDecode (strip0x (trimSpace s)) = some data) :
    ∃ suffix : List Nat,
      data = ((((parseHexStream s).1).map pairWire).flatten) ++ suffix ∧
      ((parseHexStream s).2 = none → suffix = []) ∧
      ∀ pr ∈ (parseHexStream s).1,
        pr.Hex = '0' :: 'x' :: hexEncode (pairWire pr) := by
  have hps : parseHexStream s = decodeLoop data := by
    unfold parseHexStream
    rw [hdec]
  rw [hps]
  exact decodeLoopAux_wire data.length data (le_refl _) (hexDecode_lt _ _ hdec)

/-- C4 witness: the theorem at the concrete blob `0x18c0a800c0a80001`,
    whose buffer is the eight bytes 24,192,168,0,192,168,0,1. -/
theorem C4_record_hex_is_wire_slice_witness :
    hexDecode (strip0x (trimSpace ("0x18c0a800c0a80001".data))) =
      some [24, 192, 168, 0, 192, 168, 0, 1] ∧
    ∃ suffix : List Nat,
      [24, 192, 168, 0, 192, 168, 0, 1] =
        ((((parseHexStream ("0x18c0a800c0a80001".data)).1).map pairWire).flatten)
          ++ suffix ∧
      ((parseHexStream ("0x18c0a800c0a80001".data)).2 = none → suffix = []) ∧
      ∀ pr ∈ (parseHexStream ("0x18c0a800c0a80001".data)).1,
        pr.Hex = '0' :: 'x' :: hexEncode (pairWire pr) :=
  ⟨by decide,
    C4_record_hex_is_wire_slice ("0x18c0a800c0a80001".data)
      [24, 192, 168, 0, 192, 168, 0, 1] (by decide)⟩

end HexNet
